import Mathlib

/-!
Verification of the request dispatch and delivery layer of the snake
repository (`start_production.py`).  Strings are shallowly embedded as
`List Char`; each definition below is translated from the named Python
function of the source file.
-/

namespace SnakeBot

/-- The ASCII whitespace characters recognised by Python's `str.strip()`
and by `int()`'s surrounding-whitespace tolerance (model scoped to ASCII). -/
def pyWS (c : Char) : Bool :=
  c == ' ' || c == '\t' || c == '\n' || c == '\r' || c == '\x0B' || c == '\x0C'

/-- Leading-whitespace removal, the first half of Python `str.strip()`. -/
def trimLeft (s : List Char) : List Char := s.dropWhile pyWS

/-- Trailing-whitespace removal, the second half of Python `str.strip()`. -/
def trimRight (s : List Char) : List Char := (s.reverse.dropWhile pyWS).reverse

/-- Python `str.strip()` on the `List Char` embedding. -/
def trim (s : List Char) : List Char := trimRight (trimLeft s)

/-- Python `message.split('\n')`: split on every newline, keeping empty
pieces, so that the input with one `'\n'` appended equals the
concatenation of the pieces each followed by one `'\n'`. -/
def splitNL : List Char → List (List Char)
  | [] => [[]]
  | c :: cs =>
    if c = '\n' then [] :: splitNL cs
    else
      match splitNL cs with
      | [] => [[c]]
      | l :: ls => (c :: l) :: ls

/-- Re-append one `'\n'` per line and concatenate (proof-side helper used
to state what the chunker loop has consumed so far). -/
def appendNL (ls : List (List Char)) : List Char :=
  (ls.map (fun l => l ++ ['\n'])).flatten

/-- Join chunks with a single newline between consecutive chunks (the
rejoin used by the round-trip property). -/
def joinNL : List (List Char) → List Char
  | [] => []
  | [l] => l
  | l :: ls => l ++ '\n' :: joinNL ls

/-- The non-whitespace characters of a string, in order (proof-side
helper: the content that trimming and newline rejoining cannot change). -/
def nws (s : List Char) : List Char := s.filter (fun c => !pyWS c)

/-- The loop body of `split_message` (`start_production.py` lines 443-457):
`current` is `current_chunk`, `acc` the chunks emitted so far. -/
def splitLoop (maxLength : Nat) : List (List Char) → List Char → List (List Char) → List (List Char)
  | [], current, acc =>
    -- if current_chunk.strip(): chunks.append(current_chunk.strip())
    if trim current = [] then acc else acc ++ [trim current]
  | line :: rest, current, acc =>
    if maxLength < (current ++ line ++ ['\n']).length then
      if current = [] then
        -- single line too long: emit line[:max_length], carry the rest
        splitLoop maxLength rest (line.drop maxLength ++ ['\n']) (acc ++ [line.take maxLength])
      else
        -- emit current_chunk.strip(), restart from this line
        splitLoop maxLength rest (line ++ ['\n']) (acc ++ [trim current])
    else
      splitLoop maxLength rest (current ++ line ++ ['\n']) acc

/-- The `split_message(message, max_length)` (`start_production.py` 438-459). -/
def split_message (message : List Char) (maxLength : Nat) : List (List Char) :=
  splitLoop maxLength (splitNL message) [] []

/-! ### Address validator (`is_contract_address`, lines 416-436)

The Python code decides validity by whether `int(text[2:], 16)` raises.
`pyIntParse16` models the acceptance grammar of CPython's `int(s, 16)`,
scoped to ASCII: optional surrounding whitespace, an optional single sign,
an optional `0x`/`0X` base marker, and hexadecimal digits that may be
separated by single underscores. -/

/-- An ASCII hexadecimal digit, upper or lower case. -/
def hexDigit (c : Char) : Bool :=
  c.isDigit || ('a' ≤ c && c ≤ 'f') || ('A' ≤ c && c ≤ 'F')

mutual

/-- Digit tail: further hex digits, with single underscores allowed only
between two digits. -/
def pyRest : List Char → Bool
  | [] => true
  | c :: cs => if c = '_' then pyAfterUnderscore cs else hexDigit c && pyRest cs

/-- After an interior underscore a hex digit must follow at once. -/
def pyAfterUnderscore : List Char → Bool
  | [] => false
  | d :: ds => hexDigit d && pyRest ds

end

/-- At least one hex digit, then a digit tail. -/
def pyDigitPart : List Char → Bool
  | [] => false
  | c :: cs => hexDigit c && pyRest cs

/-- After a `0x`/`0X` marker one leading underscore is tolerated before
the digits (CPython accepts `int("0x_1f", 16)`). -/
def pyAfterX : List Char → Bool
  | [] => false
  | c :: rest => if c = '_' then pyDigitPart rest else pyDigitPart (c :: rest)

/-- Body of the numeral after the optional sign: either an explicit
`0x`/`0X` marker followed by digits, or digits directly. -/
def pyBody (s : List Char) : Bool :=
  match s with
  | c :: d :: rest => if c = '0' ∧ (d = 'x' ∨ d = 'X') then pyAfterX rest else pyDigitPart s
  | _ => pyDigitPart s

/-- Optional single leading sign. -/
def pySigned : List Char → Bool
  | [] => false
  | c :: rest => if c = '+' ∨ c = '-' then pyBody rest else pyBody (c :: rest)

/-- Whether CPython's `int(s, 16)` accepts `s` (ASCII scope): surrounding
whitespace is stripped, then an optionally signed base-16 numeral. -/
def pyIntParse16 (s : List Char) : Bool := pySigned (trim s)

/-- The `is_contract_address(text)` (`start_production.py` 416-436): falsy
check, strip, `0x` check, length-42 check, then `int(text[2:], 16)`. -/
def is_contract_address (text : List Char) : Bool :=
  if text = [] then false
  else if (("0x".toList).isPrefixOf (trim text)) = false then false
  else if (trim text).length ≠ 42 then false
  else pyIntParse16 ((trim text).drop 2)

/-- The validator as the spec words it: trims to exactly 42 characters,
starts with `0x`, and the remaining 40 characters are hexadecimal digits
(upper or lower case).  Stated from the spec for comparison with
`is_contract_address`. -/
def spec_isValidAddress (text : List Char) : Bool :=
  (trim text).length = 42 && ("0x".toList).isPrefixOf (trim text)
    && ((trim text).drop 2).all hexDigit

/-! ### Delivery (`send_analysis_results` 292-316, `send_long_message` 318-341) -/

/-- Modelled from the spec: `MAX_MESSAGE_LENGTH` comes from `src.config`,
which is not part of this repository snapshot; the spec fixes the
transport cap at 4096 units. -/
def MAX_MESSAGE_LENGTH : Nat := 4096

/-- One outbound transport operation performed while delivering results. -/
inductive Delivery where
  /-- The `update.message.reply_text(...)`: a fresh message replying to the
  user's message. -/
  | replyNew (text : List Char)
  /-- The `context.bot.send_message(...)`: a fresh message in the chat. -/
  | botSend (text : List Char)
  /-- The `status_message.edit_text(...)`: editing the status placeholder. -/
  | editStatus (text : List Char)
  /-- The `add_action_buttons` quick-actions panel message. -/
  | actionsPanel
  deriving DecidableEq, Repr

/-- Whether a delivery operation edits the status placeholder. -/
def isEditStatus : Delivery → Bool
  | Delivery.editStatus _ => true
  | _ => false

/-- The texts delivered as chunk-bearing messages, in order. -/
def chunkTexts (ds : List Delivery) : List (List Char) :=
  ds.filterMap (fun d =>
    match d with
    | Delivery.replyNew t => some t
    | Delivery.botSend t => some t
    | _ => none)

/-- The `send_long_message` (318-341): chunk at `MAX_MESSAGE_LENGTH - 100`;
chunk 0 goes out via `reply_text`, later chunks via `bot.send_message`. -/
def send_long_message (message : List Char) : List Delivery :=
  match split_message message (MAX_MESSAGE_LENGTH - 100) with
  | [] => []
  | c :: cs => Delivery.replyNew c :: cs.map Delivery.botSend

/-- The `send_analysis_results` (292-316): long messages are chunked, short
ones go out as one `reply_text`; afterwards `add_action_buttons` sends the
quick-actions panel. -/
def send_analysis_results (message : List Char) : List Delivery :=
  (if MAX_MESSAGE_LENGTH < message.length then send_long_message message
   else [Delivery.replyNew message]) ++ [Delivery.actionsPanel]

/-! ### Refresh round-trip (`add_action_buttons` 358-361,
`handle_callback_query` 375-384) -/

/-- The refresh button's callback data, `f"refresh:\x7baddress\x7d"`. -/
def refreshCallbackData (address : List Char) : List Char :=
  ("refresh:".toList) ++ address

/-- The `data.split(":", 1)[1]`: everything after the first colon, `none`
when no colon occurs (where Python's index would raise). -/
def afterFirstColon : List Char → Option (List Char)
  | [] => none
  | c :: cs => if c = ':' then some cs else afterFirstColon cs

/-- The address-decoding step of `handle_callback_query` (375-384): on a
`refresh:`-prefixed payload, the address handed to
`handle_refresh_callback`; otherwise no action. -/
def handle_callback_query (data : List Char) : Option (List Char) :=
  if ("refresh:".toList).isPrefixOf data then afterFirstColon data else none

/-! ### The analysis session (`analyze_token_address` 241-290) and the
router paths (`analyze_command` 163-173, `handle_message` 228-239)

The session's effectful calls are modelled by an environment of failure
flags; the Telegram side effects become an ordered event trace, and the
module-level `analyzing_users` set is threaded explicitly. -/

/-- Which awaited calls of one session raise, mirroring the exception
sources inside `analyze_token_address`. -/
structure Env where
  /-- The initial `reply_text` placeholder send (line 257) raises. -/
  placeholderFails : Bool
  /-- The `token_analyzer.analyze_token` (line 266) raises. -/
  analyzerFails : Bool
  /-- The `response_formatter.format_token_analysis` (line 269) raises. -/
  formatFails : Bool
  /-- A send inside `send_analysis_results` raises (caught there, 314). -/
  sendFails : Bool
  /-- The `status_message.edit_text` of the except branch (276) raises. -/
  errorEditFails : Bool
  deriving DecidableEq, Repr

/-- An environment in which every awaited call succeeds. -/
def envOk : Env := ⟨false, false, false, false, false⟩

/-- An observable effect of handling one inbound request. -/
inductive Event where
  /-- "You already have an analysis in progress" (line 248). -/
  | toldToWait
  /-- "Please provide a contract address" usage reply (line 166). -/
  | usageError
  /-- "Please send a valid contract address" rejection (line 236). -/
  | rejectedInvalid
  /-- The "Analyzing token..." placeholder was sent (line 257). -/
  | placeholderSent
  /-- The `token_analyzer.analyze_token(addr)` was invoked (line 266). -/
  | analyzerCalled (addr : List Char)
  /-- The placeholder was edited to "Analysis Failed" (line 276). -/
  | errorEdited
  /-- The outer handler's "An error occurred" reply (line 290). -/
  | outerErrorReplied
  /-- The `send_analysis_results` delivered the results (line 272). -/
  | resultsSent
  /-- The `send_analysis_results` caught a send failure and replied an
  error (line 316). -/
  | sendErrorReplied
  deriving DecidableEq, Repr

/-- The `analyze_token_address` (241-290).  Control flow: the guard check and
`analyzing_users.add` (247-254), then the placeholder send (257) which is
inside the outer `try` but before the inner `try/except/finally`, so its
failure skips the `finally` discard (286); failures of the analyzer or
formatter reach the inner `except` (274) and the `finally` discard runs
even when the error edit itself raises. -/
def analyze_token_address (env : Env) (users : Finset ℕ) (uid : ℕ) (addr : List Char) :
    Finset ℕ × List Event :=
  if uid ∈ users then (users, [Event.toldToWait])
  else
    let acquired := insert uid users
    if env.placeholderFails then
      (acquired, [Event.outerErrorReplied])
    else if env.analyzerFails then
      (acquired.erase uid,
        [Event.placeholderSent, Event.analyzerCalled addr,
          if env.errorEditFails then Event.outerErrorReplied else Event.errorEdited])
    else if env.formatFails then
      (acquired.erase uid,
        [Event.placeholderSent, Event.analyzerCalled addr,
          if env.errorEditFails then Event.outerErrorReplied else Event.errorEdited])
    else
      (acquired.erase uid,
        [Event.placeholderSent, Event.analyzerCalled addr,
          if env.sendFails then Event.sendErrorReplied else Event.resultsSent])

/-- The `handle_message` (228-239): strip, check `is_contract_address`, and
either analyze the text or reject it. -/
def handle_message (env : Env) (users : Finset ℕ) (uid : ℕ) (text : List Char) :
    Finset ℕ × List Event :=
  let t := trim text
  if is_contract_address t then analyze_token_address env users uid t
  else (users, [Event.rejectedInvalid])

/-- The `analyze_command` (163-173): no arguments is a usage error; otherwise
`context.args[0]` is analyzed with no validation. -/
def analyze_command (env : Env) (users : Finset ℕ) (uid : ℕ) (args : List (List Char)) :
    Finset ℕ × List Event :=
  match args with
  | [] => (users, [Event.usageError])
  | a :: _ => analyze_token_address env users uid a

/-! ### Helper lemmas about trimming, line splitting and rejoining -/

theorem trimLeft_append_of_ne_nil (s t : List Char) (h : trimLeft s ≠ []) :
    trimLeft (s ++ t) = trimLeft s ++ t := by
  unfold trimLeft at *
  rw [List.dropWhile_append, if_neg]
  simpa [List.isEmpty_iff] using h

theorem trimLeft_append_of_nil (s t : List Char) (h : trimLeft s = []) :
    trimLeft (s ++ t) = trimLeft t := by
  unfold trimLeft at *
  rw [List.dropWhile_append, if_pos]
  simpa [List.isEmpty_iff] using h

theorem trimRight_append_newline (u : List Char) : trimRight (u ++ ['\n']) = trimRight u := by
  unfold trimRight
  rw [List.reverse_append]
  simp only [List.reverse_cons, List.reverse_nil, List.nil_append, List.singleton_append]
  rw [List.dropWhile_cons_of_pos (by decide : pyWS '\n' = true)]

theorem trim_append_newline (s : List Char) : trim (s ++ ['\n']) = trim s := by
  unfold trim
  by_cases h : trimLeft s = []
  · rw [trimLeft_append_of_nil s _ h, h]
    rfl
  · rw [trimLeft_append_of_ne_nil s _ h, trimRight_append_newline]

theorem trimRight_length_le (s : List Char) : (trimRight s).length ≤ s.length := by
  unfold trimRight
  calc (s.reverse.dropWhile pyWS).reverse.length
      = (s.reverse.dropWhile pyWS).length := List.length_reverse ..
    _ ≤ s.reverse.length := (List.dropWhile_sublist ..).length_le
    _ = s.length := List.length_reverse ..

theorem trim_length_le (s : List Char) : (trim s).length ≤ s.length := by
  calc (trim s).length ≤ (trimLeft s).length := trimRight_length_le _
    _ ≤ s.length := (List.dropWhile_sublist ..).length_le

theorem splitNL_ne_nil (s : List Char) : splitNL s ≠ [] := by
  cases s with
  | nil => simp [splitNL]
  | cons c cs =>
    unfold splitNL
    split
    · simp
    · cases h : splitNL cs <;> simp

theorem appendNL_cons (l : List Char) (ls : List (List Char)) :
    appendNL (l :: ls) = l ++ '\n' :: appendNL ls := by
  simp [appendNL]

theorem appendNL_splitNL (s : List Char) : appendNL (splitNL s) = s ++ ['\n'] := by
  induction s with
  | nil => rfl
  | cons c cs ih =>
    unfold splitNL
    by_cases h : c = '\n'
    · subst h
      rw [if_pos rfl, appendNL_cons, ih]
      rfl
    · rw [if_neg h]
      cases hs : splitNL cs with
      | nil => exact absurd hs (splitNL_ne_nil cs)
      | cons l ls =>
        rw [hs, appendNL_cons] at ih
        rw [appendNL_cons]
        simp [← ih]

theorem nws_append (s t : List Char) : nws (s ++ t) = nws s ++ nws t := by
  simp [nws]

theorem nws_dropWhileWS (s : List Char) : nws (s.dropWhile pyWS) = nws s := by
  induction s with
  | nil => rfl
  | cons c cs ih =>
    by_cases h : pyWS c
    · rw [List.dropWhile_cons_of_pos h, ih]
      simp [nws, h]
    · rw [List.dropWhile_cons_of_neg h]

theorem nws_reverse (s : List Char) : nws s.reverse = (nws s).reverse := by
  simp [nws, List.filter_reverse]

theorem nws_trim (s : List Char) : nws (trim s) = nws s := by
  unfold trim trimRight trimLeft
  rw [nws_reverse, nws_dropWhileWS, nws_reverse, List.reverse_reverse, nws_dropWhileWS]

theorem nws_newline_cons (s : List Char) : nws ('\n' :: s) = nws s := by
  simp [nws, pyWS]

theorem nws_take_drop (n : Nat) (l : List Char) :
    nws (l.take n) ++ nws (l.drop n) = nws l := by
  rw [← nws_append, List.take_append_drop]

theorem nws_nil : nws [] = [] := rfl

theorem nws_singleton_newline : nws ['\n'] = [] := rfl

/-- The chunker loop never loses or invents non-whitespace content: the
non-whitespace characters of all emitted chunks, remaining accumulator and
unread lines are exactly those already seen plus those still to come. -/
theorem splitLoop_nws (m : Nat) (ls : List (List Char)) :
    ∀ current acc, nws (splitLoop m ls current acc).flatten
      = nws acc.flatten ++ nws current ++ nws (appendNL ls) := by
  induction ls with
  | nil =>
    intro current acc
    unfold splitLoop
    by_cases h : trim current = []
    · rw [if_pos h]
      have hc : nws current = [] := by rw [← nws_trim current, h]; rfl
      simp [appendNL, hc, nws_nil]
    · rw [if_neg h]
      simp [nws_append, nws_trim, appendNL, nws_nil]
  | cons line rest ih =>
    intro current acc
    unfold splitLoop
    by_cases h1 : m < (current ++ line ++ ['\n']).length
    · rw [if_pos h1]
      by_cases h2 : current = []
      · rw [if_pos h2, ih]
        subst h2
        simp only [appendNL_cons, nws_append, List.flatten_append, List.flatten_cons,
          List.flatten_nil, List.append_nil, List.nil_append, nws_newline_cons,
          nws_singleton_newline, nws_nil, List.append_assoc]
        rw [← nws_take_drop m line]
        simp [List.append_assoc]
      · rw [if_neg h2, ih]
        simp only [appendNL_cons, nws_append, List.flatten_append, List.flatten_cons,
          List.flatten_nil, List.append_nil, List.nil_append, nws_newline_cons,
          nws_singleton_newline, nws_nil, nws_trim, List.append_assoc]
    · rw [if_neg h1, ih]
      simp only [appendNL_cons, nws_append, List.flatten_append, List.flatten_cons,
        List.flatten_nil, List.append_nil, List.nil_append, nws_newline_cons,
        nws_singleton_newline, nws_nil, List.append_assoc]

/-- The chunker loop keeps every emitted chunk within `maxLength`, as long
as no pending line exceeds `maxLength`; the accumulator is empty or a
newline-terminated string whose body fits. -/
theorem splitLoop_bound (m : Nat) (ls : List (List Char)) :
    ∀ current acc,
      (∀ l ∈ ls, l.length ≤ m) →
      (∀ c ∈ acc, c.length ≤ m) →
      (current = [] ∨ ∃ t, current = t ++ ['\n'] ∧ t.length ≤ m) →
      ∀ c ∈ splitLoop m ls current acc, c.length ≤ m := by
  induction ls with
  | nil =>
    intro current acc _ hacc hcur c hc
    unfold splitLoop at hc
    by_cases h : trim current = []
    · rw [if_pos h] at hc
      exact hacc c hc
    · rw [if_neg h] at hc
      rcases List.mem_append.1 hc with h1 | h1
      · exact hacc c h1
      · rcases hcur with rfl | ⟨t, rfl, ht⟩
        · exact absurd rfl h
        · rcases List.mem_singleton.1 h1 with rfl
          rw [trim_append_newline]
          exact le_trans (trim_length_le t) ht
  | cons line rest ih =>
    intro current acc hls hacc hcur c hc
    have hline : line.length ≤ m := hls line (List.mem_cons_self ..)
    have hrest : ∀ l ∈ rest, l.length ≤ m := fun l hl => hls l (List.mem_cons_of_mem _ hl)
    unfold splitLoop at hc
    by_cases h1 : m < (current ++ line ++ ['\n']).length
    · rw [if_pos h1] at hc
      by_cases h2 : current = []
      · rw [if_pos h2] at hc
        refine ih _ _ hrest ?_ ?_ c hc
        · intro d hd
          rcases List.mem_append.1 hd with h3 | h3
          · exact hacc d h3
          · rcases List.mem_singleton.1 h3 with rfl
            exact le_trans (List.length_take_le ..) le_rfl
        · right
          exact ⟨line.drop m, rfl, by simpa using Nat.le_trans (Nat.sub_le ..) hline⟩
      · rw [if_neg h2] at hc
        refine ih _ _ hrest ?_ ?_ c hc
        · intro d hd
          rcases List.mem_append.1 hd with h3 | h3
          · exact hacc d h3
          · rcases List.mem_singleton.1 h3 with rfl
            rcases hcur with rfl | ⟨t, rfl, ht⟩
            · exact absurd rfl h2
            · rw [trim_append_newline]
              exact le_trans (trim_length_le t) ht
        · exact Or.inr ⟨line, rfl, hline⟩
    · rw [if_neg h1] at hc
      refine ih _ _ hrest hacc ?_ c hc
      right
      refine ⟨current ++ line, by simp, ?_⟩
      have := Nat.not_lt.1 h1
      simp only [List.length_append, List.length_cons, List.length_nil] at this ⊢
      omega

/-- When everything still to be read fits under `maxLength`, the loop
simply flushes it as at most one final trimmed chunk. -/
theorem splitLoop_small (m : Nat) (ls : List (List Char)) :
    ∀ current acc, (current ++ appendNL ls).length ≤ m →
      splitLoop m ls current acc
        = acc ++ (if trim (current ++ appendNL ls) = [] then []
            else [trim (current ++ appendNL ls)]) := by
  induction ls with
  | nil =>
    intro current acc _
    unfold splitLoop
    simp only [appendNL, List.map_nil, List.flatten_nil, List.append_nil]
    split <;> simp
  | cons line rest ih =>
    intro current acc h
    have hlen : ¬ m < (current ++ line ++ ['\n']).length := by
      rw [appendNL_cons] at h
      simp only [List.length_append, List.length_cons, List.length_nil] at h ⊢
      omega
    unfold splitLoop
    rw [if_neg hlen, ih]
    · rw [appendNL_cons]
      simp [List.append_assoc]
    · rw [appendNL_cons] at h
      simpa [List.append_assoc] using h

theorem joinNL_cons_cons (l l2 : List Char) (ls : List (List Char)) :
    joinNL (l :: l2 :: ls) = l ++ '\n' :: joinNL (l2 :: ls) := rfl

theorem joinNL_nws : ∀ ls : List (List Char), nws (joinNL ls) = nws ls.flatten
  | [] => rfl
  | [l] => by simp [joinNL]
  | l :: l2 :: ls => by
    rw [joinNL_cons_cons, nws_append, nws_newline_cons, joinNL_nws (l2 :: ls)]
    simp [nws_append]

/-- Once the guard check has passed, every path of the session other than
a failing placeholder send ends with the user's entry released: the inner
`finally` discard runs on analyzer, formatter, error-edit and delivery
failures alike. -/
theorem session_releases_uid (env : Env) (users : Finset ℕ) (uid : ℕ) (addr : List Char)
    (h1 : uid ∉ users) (h2 : env.placeholderFails = false) :
    uid ∉ (analyze_token_address env users uid addr).1 := by
  unfold analyze_token_address
  rw [if_neg h1]
  simp only [h2, Bool.false_eq_true, if_false]
  split
  · exact Finset.not_mem_erase uid _
  · split
    · exact Finset.not_mem_erase uid _
    · exact Finset.not_mem_erase uid _

/-- A session whose guard check passes never replies "please wait". -/
theorem session_no_wait (env : Env) (users : Finset ℕ) (uid : ℕ) (addr : List Char)
    (h1 : uid ∉ users) :
    Event.toldToWait ∉ (analyze_token_address env users uid addr).2 := by
  unfold analyze_token_address
  rw [if_neg h1]
  repeat' split
  all_goals simp

/-! ### Claim theorems -/

/-- Claim C2, counterexample: with `maxLength = 5` and input `"a\nbbbbbbbb"`,
the over-long line `"bbbbbbbb"` is reached while the accumulator holds
`"a\n"`, so it is carried whole and emitted as a chunk of length 8 — longer
than `maxLength` and not cut at exactly `maxLength`. -/
theorem c2_counterexample :
    ("bbbbbbbb".toList) ∈ split_message ("a\nbbbbbbbb".toList) 5 ∧
    5 < ("bbbbbbbb".toList).length ∧ ("bbbbbbbb".toList).length ≠ 5 := by decide

/-- Claim C2 (amended): every chunk produced by `split_message` has length
at most `maxLength` provided every input line has length at most
`maxLength`; an input line longer than `maxLength` is cut at exactly
`maxLength` only when it is reached with an empty accumulator, and
otherwise becomes a chunk exceeding `maxLength`. -/
theorem c2_chunk_size_bound (text : List Char) (m : Nat)
    (h : ∀ l ∈ splitNL text, l.length ≤ m) :
    ∀ c ∈ split_message text m, c.length ≤ m :=
  splitLoop_bound m (splitNL text) [] [] h (by simp) (Or.inl rfl)

/-- Witness for C2's amended bound at a concrete input. -/
theorem c2_chunk_size_bound_witness :
    (∀ l ∈ splitNL ("ab\ncd".toList), l.length ≤ 4) ∧
    ∀ c ∈ split_message ("ab\ncd".toList) 4, c.length ≤ 4 :=
  ⟨by decide, c2_chunk_size_bound ("ab\ncd".toList) 4 (by decide)⟩

/-- Claim C7, counterexample: the empty input has length at most any
`maxLength`, yet `split_message` yields no chunk at all rather than
exactly one chunk. -/
theorem c7_counterexample :
    ([] : List Char).length ≤ 5 ∧ split_message [] 5 = [] := by decide

/-- Claim C7 (amended): when the trimmed input is non-empty and the input
length is strictly below `maxLength`, `split_message` yields exactly one
chunk, the trimmed input.  (At `length = maxLength` the result can be two
chunks or an untrimmed truncation, and whitespace-only input yields no
chunk.) -/
theorem c7_single_chunk (text : List Char) (m : Nat)
    (h1 : trim text ≠ []) (h2 : text.length < m) :
    split_message text m = [trim text] := by
  have hlen : (([] : List Char) ++ appendNL (splitNL text)).length ≤ m := by
    rw [List.nil_append, appendNL_splitNL]
    simp only [List.length_append, List.length_cons, List.length_nil]
    omega
  unfold split_message
  rw [splitLoop_small m (splitNL text) [] [] hlen]
  simp only [List.nil_append, appendNL_splitNL, trim_append_newline]
  rw [if_neg h1]

/-- Witness for C7's amended statement at a concrete input. -/
theorem c7_single_chunk_witness :
    (trim ("hi".toList) ≠ [] ∧ ("hi".toList).length < 5) ∧
    split_message ("hi".toList) 5 = [trim ("hi".toList)] :=
  ⟨by decide, c7_single_chunk ("hi".toList) 5 (by decide) (by decide)⟩

/-- Claim C8, counterexample: for `"a \nbb"` with `maxLength = 3`, no line
exceeds `maxLength`, yet rejoining the chunks with a newline gives
`"a\nbb"`, not the trimmed original `"a \nbb"` — the per-chunk trimming
discarded the interior trailing space. -/
theorem c8_counterexample :
    (∀ l ∈ splitNL ("a \nbb".toList), l.length ≤ 3) ∧
    joinNL (split_message ("a \nbb".toList) 3) ≠ trim ("a \nbb".toList) := by decide

/-- Claim C8 (amended): rejoining all chunks with a single newline
preserves exactly the non-whitespace content of the original text, in
order, for every input and every `maxLength` — including truncation cases,
which lose no characters; exact reproduction of the trimmed text can fail
because chunk boundaries trim interior whitespace. -/
theorem c8_content_round_trip (text : List Char) (m : Nat) :
    nws (joinNL (split_message text m)) = nws text := by
  rw [joinNL_nws]
  unfold split_message
  rw [splitLoop_nws]
  rw [appendNL_splitNL, nws_append, nws_singleton_newline]
  simp [nws_nil]

/-- Claim C9: the refresh button's callback data for address `A` decodes
back to exactly `A`: the handler strips everything up to the first colon,
and the literal `refresh:` carrier contains exactly one colon, at its end. -/
theorem c9_refresh_round_trip (address : List Char) :
    handle_callback_query (refreshCallbackData address) = some address := by
  have hpre : ("refresh:".toList).isPrefixOf (("refresh:".toList) ++ address) = true :=
    List.isPrefixOf_iff_prefix.2 (List.prefix_append ..)
  simp [handle_callback_query, refreshCallbackData, afterFirstColon, hpre]

/-- Claim C1, counterexample: when the `tryAcquire` of user `0` succeeds
and the status-placeholder send then raises (it sits inside the outer
`try` but before the inner `try/finally`), the outer handler catches the
exception without running the `finally` discard, and the user remains in
the analyzing set when the session ends. -/
theorem c1_counterexample :
    0 ∈ (analyze_token_address ⟨true, false, false, false, false⟩ ∅ 0 ("0xabc".toList)).1 := by
  decide

/-- Claim C1 (amended): once `tryAcquire` succeeds, any exception raised
from the placeholder send onward — during analyzing, formatting or
delivering, including a failing error edit — leads to the user id being
removed before the session ends; only an exception in the placeholder
send itself skips the cleanup and leaves the user a member. -/
theorem c1_guard_release (env : Env) (users : Finset ℕ) (uid : ℕ) (addr : List Char)
    (h1 : uid ∉ users) (h2 : env.placeholderFails = false) :
    uid ∉ (analyze_token_address env users uid addr).1 :=
  session_releases_uid env users uid addr h1 h2

/-- Witness for C1's amended statement: a failing analyzer run still
releases user `0`. -/
theorem c1_guard_release_witness :
    (0 ∉ (∅ : Finset ℕ)) ∧
    0 ∉ (analyze_token_address ⟨false, true, false, false, false⟩ ∅ 0 ("a".toList)).1 :=
  ⟨by decide, c1_guard_release ⟨false, true, false, false, false⟩ ∅ 0 ("a".toList) (by decide) rfl⟩

/-- Claim C6: if the analyzer raises mid-session, the `finally` discard
releases the user's entry, so an immediately following second request from
the same user passes the guard check and is not told to wait. -/
theorem c6_second_request_accepted (env1 env2 : Env) (users : Finset ℕ) (uid : ℕ)
    (addr1 addr2 : List Char)
    (h1 : uid ∉ users) (h2 : env1.placeholderFails = false)
    (h3 : env1.analyzerFails = true) :
    Event.analyzerCalled addr1 ∈ (analyze_token_address env1 users uid addr1).2 ∧
    uid ∉ (analyze_token_address env1 users uid addr1).1 ∧
    Event.toldToWait ∉
      (analyze_token_address env2 (analyze_token_address env1 users uid addr1).1 uid addr2).2 := by
  have hrel := session_releases_uid env1 users uid addr1 h1 h2
  refine ⟨?_, hrel, session_no_wait env2 _ uid addr2 hrel⟩
  unfold analyze_token_address
  rw [if_neg h1]
  simp [h2, h3]

/-- Witness for C6 at a concrete failing-then-retrying scenario. -/
theorem c6_second_request_accepted_witness :
    (0 ∉ (∅ : Finset ℕ)) ∧
    Event.analyzerCalled ("a".toList)
      ∈ (analyze_token_address ⟨false, true, false, false, false⟩ ∅ 0 ("a".toList)).2 ∧
    0 ∉ (analyze_token_address ⟨false, true, false, false, false⟩ ∅ 0 ("a".toList)).1 ∧
    Event.toldToWait ∉
      (analyze_token_address envOk
        (analyze_token_address ⟨false, true, false, false, false⟩ ∅ 0 ("a".toList)).1
        0 ("a".toList)).2 := by
  have h := c6_second_request_accepted ⟨false, true, false, false, false⟩ envOk ∅ 0
    ("a".toList) ("a".toList) (by decide) rfl rfl
  exact ⟨by decide, h.1, h.2.1, h.2.2⟩

/-- Claim C3, counterexample: the `analyze` command performs no
validation: `/analyze zz` with the invalid address `"zz"` takes the guard,
calls the analyzer, and never sends a rejection. -/
theorem c3_counterexample :
    is_contract_address ("zz".toList) = false ∧
    Event.analyzerCalled ("zz".toList) ∈ (analyze_command envOk ∅ 0 [("zz".toList)]).2 ∧
    Event.rejectedInvalid ∉ (analyze_command envOk ∅ 0 [("zz".toList)]).2 := by decide

/-- Claim C3 (amended): only the free-text path validates: a free-text
message failing `is_contract_address` is rejected with no analyzing-set
entry taken and no analyzer call; the `analyze` command forwards its first
argument unvalidated, so an invalid argument does reach the guard and the
analyzer. -/
theorem c3_free_text_validation (env : Env) (users : Finset ℕ) (uid : ℕ) (text : List Char)
    (h : is_contract_address (trim text) = false) :
    (handle_message env users uid text).1 = users ∧
    Event.rejectedInvalid ∈ (handle_message env users uid text).2 ∧
    ∀ a, Event.analyzerCalled a ∉ (handle_message env users uid text).2 := by
  unfold handle_message
  simp [h]

/-- Witness for C3's amended statement on a concrete invalid message. -/
theorem c3_free_text_validation_witness :
    is_contract_address (trim ("zz".toList)) = false ∧
    (handle_message envOk ∅ 0 ("zz".toList)).1 = ∅ ∧
    Event.rejectedInvalid ∈ (handle_message envOk ∅ 0 ("zz".toList)).2 ∧
    ∀ a, Event.analyzerCalled a ∉ (handle_message envOk ∅ 0 ("zz".toList)).2 := by
  have h := c3_free_text_validation envOk ∅ 0 ("zz".toList) (by decide)
  exact ⟨by decide, h.1, h.2.1, h.2.2⟩

/-- Claim C10: with more than one argument, `analyze_command` behaves
exactly as analyzing the first argument — the rest are ignored — and no
usage error is produced (that reply is reserved for zero arguments). -/
theorem c10_extra_args_ignored (env : Env) (users : Finset ℕ) (uid : ℕ)
    (a : List Char) (rest : List (List Char)) :
    analyze_command env users uid (a :: rest) = analyze_token_address env users uid a ∧
    Event.usageError ∉ (analyze_command env users uid (a :: rest)).2 := by
  refine ⟨rfl, ?_⟩
  show Event.usageError ∉ (analyze_token_address env users uid a).2
  unfold analyze_token_address
  repeat' split
  all_goals simp

theorem chunkTexts_nil : chunkTexts [] = [] := rfl

theorem chunkTexts_cons_replyNew (t : List Char) (ds : List Delivery) :
    chunkTexts (Delivery.replyNew t :: ds) = t :: chunkTexts ds := rfl

theorem chunkTexts_cons_botSend (t : List Char) (ds : List Delivery) :
    chunkTexts (Delivery.botSend t :: ds) = t :: chunkTexts ds := rfl

theorem chunkTexts_append (a b : List Delivery) :
    chunkTexts (a ++ b) = chunkTexts a ++ chunkTexts b := by
  simp [chunkTexts]

theorem chunkTexts_botSends (cs : List (List Char)) :
    chunkTexts (cs.map Delivery.botSend) = cs := by
  induction cs with
  | nil => rfl
  | cons c cs ih => rw [List.map_cons, chunkTexts_cons_botSend, ih]

theorem chunkTexts_send_long (msg : List Char) :
    chunkTexts (send_long_message msg) = split_message msg (MAX_MESSAGE_LENGTH - 100) := by
  unfold send_long_message
  cases h : split_message msg (MAX_MESSAGE_LENGTH - 100) with
  | nil => rfl
  | cons c cs => rw [chunkTexts_cons_replyNew, chunkTexts_botSends]

/-- Claim C4, counterexample: a short payload is delivered with
`reply_text` — a fresh message replying to the user — and the
"Analyzing token..." status placeholder is never edited, contrary to the
claimed edit-in-place delivery. -/
theorem c4_counterexample :
    send_analysis_results ("hi".toList)
      = [Delivery.replyNew ("hi".toList), Delivery.actionsPanel] ∧
    (send_analysis_results ("hi".toList)).filter isEditStatus = [] := by decide

/-- Claim C4 (amended): delivery never edits the status placeholder; a
payload within `MAX_MESSAGE_LENGTH` goes out as one new reply message, a
longer one is chunked with `maxLength = MAX_MESSAGE_LENGTH - 100` and the
chunks are sent in order — the first as a new reply message, the later
ones as new messages. -/
theorem c4_delivery (msg : List Char) :
    (∀ d ∈ send_analysis_results msg, isEditStatus d = false) ∧
    (MAX_MESSAGE_LENGTH < msg.length →
      chunkTexts (send_analysis_results msg) = split_message msg (MAX_MESSAGE_LENGTH - 100)) ∧
    (msg.length ≤ MAX_MESSAGE_LENGTH →
      chunkTexts (send_analysis_results msg) = [msg]) := by
  refine ⟨?_, ?_, ?_⟩
  · intro d hd
    unfold send_analysis_results send_long_message at hd
    rcases List.mem_append.1 hd with hd | hd
    · split at hd
      · revert hd
        cases split_message msg (MAX_MESSAGE_LENGTH - 100) with
        | nil => intro hd; cases hd
        | cons c cs =>
          intro hd
          rcases List.mem_cons.1 hd with rfl | hd
          · rfl
          · rcases List.mem_map.1 hd with ⟨t, _, rfl⟩
            rfl
      · rcases List.mem_singleton.1 hd with rfl
        rfl
    · rcases List.mem_singleton.1 hd with rfl
      rfl
  · intro h
    unfold send_analysis_results
    rw [if_pos h, chunkTexts_append, chunkTexts_send_long,
      show chunkTexts [Delivery.actionsPanel] = [] from rfl, List.append_nil]
  · intro h
    unfold send_analysis_results
    rw [if_neg (Nat.not_lt.2 h)]
    rfl

/-- Witness for C4's amended statement on a 4097-character payload. -/
theorem c4_delivery_witness :
    MAX_MESSAGE_LENGTH < (List.replicate 4097 'a').length ∧
    chunkTexts (send_analysis_results (List.replicate 4097 'a'))
      = split_message (List.replicate 4097 'a') (MAX_MESSAGE_LENGTH - 100) := by
  have hl : MAX_MESSAGE_LENGTH < (List.replicate 4097 'a').length := by
    rw [List.length_replicate]
    decide
  exact ⟨hl, (c4_delivery (List.replicate 4097 'a')).2.1 hl⟩

theorem hexDigit_not_ws (c : Char) (h : hexDigit c = true) : pyWS c = false := by
  cases hw : pyWS c
  · rfl
  · exfalso
    simp only [pyWS, Bool.or_eq_true, beq_iff_eq] at hw
    rcases hw with ((((h1 | h1) | h1) | h1) | h1) | h1 <;> subst h1 <;>
      exact absurd h (by decide)

theorem trimLeft_of_not_ws (l : List Char) (h : ∀ c ∈ l, pyWS c = false) :
    trimLeft l = l := by
  cases l with
  | nil => rfl
  | cons c cs =>
    exact List.dropWhile_cons_of_neg (by simp [h c (List.mem_cons_self ..)])

theorem trimRight_of_not_ws (l : List Char) (h : ∀ c ∈ l, pyWS c = false) :
    trimRight l = l := by
  unfold trimRight
  cases hr : l.reverse with
  | nil =>
    rw [List.reverse_eq_nil_iff.1 hr]
    rfl
  | cons c cs =>
    have hc : pyWS c = false := by
      refine h c ?_
      rw [← List.mem_reverse, hr]
      exact List.mem_cons_self ..
    rw [List.dropWhile_cons_of_neg (by simp [hc]), ← hr, List.reverse_reverse]

theorem trim_of_not_ws (l : List Char) (h : ∀ c ∈ l, pyWS c = false) :
    trim l = l := by
  unfold trim
  rw [trimLeft_of_not_ws l h, trimRight_of_not_ws l h]

theorem pyRest_of_all_hex (cs : List Char) (h : ∀ c ∈ cs, hexDigit c = true) :
    pyRest cs = true := by
  induction cs with
  | nil => rfl
  | cons c cs ih =>
    have hc : hexDigit c = true := h c (List.mem_cons_self ..)
    have hrest : ∀ d ∈ cs, hexDigit d = true := fun d hd => h d (List.mem_cons_of_mem _ hd)
    have hu : ¬ c = '_' := by
      rintro rfl
      exact absurd hc (by decide)
    rw [pyRest, if_neg hu, hc, ih hrest]
    rfl

theorem pyDigitPart_of_all_hex (l : List Char) (hne : l ≠ [])
    (h : ∀ c ∈ l, hexDigit c = true) : pyDigitPart l = true := by
  cases l with
  | nil => exact absurd rfl hne
  | cons c cs =>
    have hc : hexDigit c = true := h c (List.mem_cons_self ..)
    have hrest : ∀ d ∈ cs, hexDigit d = true := fun d hd => h d (List.mem_cons_of_mem _ hd)
    simp only [pyDigitPart, hc, pyRest_of_all_hex cs hrest, Bool.and_self]

theorem pyIntParse16_of_all_hex (l : List Char) (hne : l ≠ [])
    (h : ∀ c ∈ l, hexDigit c = true) : pyIntParse16 l = true := by
  unfold pyIntParse16
  rw [trim_of_not_ws l (fun c hc => hexDigit_not_ws c (h c hc))]
  cases l with
  | nil => exact absurd rfl hne
  | cons c cs =>
    have hc : hexDigit c = true := h c (List.mem_cons_self ..)
    have hsign : ¬ (c = '+' ∨ c = '-') := by
      rintro (rfl | rfl) <;> exact absurd hc (by decide)
    rw [pySigned, if_neg hsign]
    cases cs with
    | nil => simp [pyBody, pyDigitPart, pyRest, hc]
    | cons d ds =>
      have hd : hexDigit d = true := h d (List.mem_cons_of_mem _ (List.mem_cons_self ..))
      have hx : ¬ (c = '0' ∧ (d = 'x' ∨ d = 'X')) := by
        rintro ⟨-, rfl | rfl⟩ <;> exact absurd hd (by decide)
      rw [pyBody, if_neg hx]
      exact pyDigitPart_of_all_hex _ (by simp) h

/-- Claim C5, counterexample: the 42-character string `0x+1…1` is accepted
by `is_contract_address` — the trailing `int(text[2:], 16)` probe
tolerates a leading sign — although its 40-character remainder is not
made of hexadecimal digits, as the spec-worded validator shows. -/
theorem c5_counterexample :
    is_contract_address ("0x+111111111111111111111111111111111111111".toList) = true ∧
    spec_isValidAddress ("0x+111111111111111111111111111111111111111".toList) = false := by
  decide

/-- Claim C5 (amended): `is_contract_address` is total by construction and
returns `true` iff the input trims to exactly 42 characters, starts with
`0x`, and the remaining 40 characters are accepted by Python's base-16
integer parser; every all-hex-digit remainder is accepted (so the
spec-worded validator implies acceptance), but the parser also tolerates
surrounding whitespace, one leading sign, an inner `0x`/`0X` marker and
single underscores between digits. -/
theorem c5_validator (s : List Char) :
    (is_contract_address s = true ↔
      ((trim s).length = 42 ∧ ("0x".toList).isPrefixOf (trim s) = true ∧
        pyIntParse16 ((trim s).drop 2) = true)) ∧
    (spec_isValidAddress s = true → is_contract_address s = true) := by
  have hiff : is_contract_address s = true ↔
      ((trim s).length = 42 ∧ ("0x".toList).isPrefixOf (trim s) = true ∧
        pyIntParse16 ((trim s).drop 2) = true) := by
    unfold is_contract_address
    by_cases h0 : s = []
    · subst h0
      decide
    · rw [if_neg h0]
      split_ifs with h1 h2
      · constructor
        · intro hfalse
          exact absurd hfalse (by simp)
        · rintro ⟨-, hpref, -⟩
          rw [h1] at hpref
          exact Bool.noConfusion hpref
      · simp [h2]
      · have hpref : ("0x".toList).isPrefixOf (trim s) = true := by
          cases hb : ("0x".toList).isPrefixOf (trim s)
          · exact absurd hb h1
          · rfl
        have hp : ['0', 'x'] <+: trim s := List.isPrefixOf_iff_prefix.1 hpref
        have hlen : (trim s).length = 42 := not_not.1 h2
        simp [hlen, hpref, hp]
  refine ⟨hiff, fun hs => ?_⟩
  unfold spec_isValidAddress at hs
  simp only [Bool.and_eq_true, decide_eq_true_eq] at hs
  obtain ⟨⟨hlen, hpref⟩, hall⟩ := hs
  apply hiff.2
  refine ⟨hlen, hpref, ?_⟩
  apply pyIntParse16_of_all_hex
  · intro hd
    have hld := congrArg List.length hd
    simp only [List.length_drop, hlen, List.length_nil] at hld
    cases hld
  · intro c hc
    exact List.all_eq_true.1 hall c hc

/-- Witness for C5's amended statement: a spec-valid address is accepted. -/
theorem c5_validator_witness :
    spec_isValidAddress ("0x1234567890abcdef1234567890abcdef12345678".toList) = true ∧
    is_contract_address ("0x1234567890abcdef1234567890abcdef12345678".toList) = true :=
  ⟨by decide,
    (c5_validator ("0x1234567890abcdef1234567890abcdef12345678".toList)).2 (by decide)⟩

end SnakeBot
